import Mathlib

/-!
Verification development for the user-management chat-bot plugin
(src/main.py).  The file embeds the record store (`UserManager`) and the
command/reminder service (`UserManagementPlugin`) shallowly in Lean:
calendar dates are integer day numbers, Python `datetime` values are a day
plus a time-of-day offset in microseconds, the on-disk `users` document is
an association list threaded through every operation, and message dispatch
in the reminder loop is recorded as a trace of events.
-/

/-- Microseconds per day; the resolution of Python `timedelta`. -/
def usPerDay : Int := 86400000000

/-- A Python `datetime`: a calendar day (days since a fixed epoch) plus the
time of day in microseconds.  Values produced by `datetime.now()` satisfy
`0 ≤ time < usPerDay`; `strftime("%Y-%m-%d")` of such a value is its `day`,
and adding `timedelta(days=k)` adds `k` to `day` leaving `time` fixed. -/
structure DateTime where
  day : Int
  time : Nat
deriving DecidableEq

/-- Python `datetime` ordering: lexicographic on the day, then the time of
day. -/
def dtLt (a b : DateTime) : Prop :=
  a.day < b.day ∨ (a.day = b.day ∧ a.time < b.time)

instance (a b : DateTime) : Decidable (dtLt a b) :=
  inferInstanceAs (Decidable (a.day < b.day ∨ (a.day = b.day ∧ a.time < b.time)))

/-- Python `timedelta.days`: timedeltas are normalised so that `.days` is the
floor division of the signed length in microseconds by one day. -/
def timedelta_days (us : Int) : Int := Int.fdiv us usPerDay

/-- A stored date string.  A well-formed `YYYY-MM-DD` text is represented by
the day number it denotes (the format is canonical, so equality of two
well-formed date texts is equality of their day numbers, and a malformed
text never equals a well-formed one); any other text is `malformed`.
`datetime.strptime(s, "%Y-%m-%d")` succeeds exactly on the well-formed
case, and `strftime` always produces a well-formed text. -/
inductive DateVal where
  | valid (d : Int)
  | malformed (s : String)
deriving DecidableEq

/-- The stored text of a date value (stands for the `YYYY-MM-DD` rendering
of a `valid` day, which the command responses interpolate). -/
def dvRepr : DateVal → String
  | .valid d => "<" ++ toString d ++ ">"
  | .malformed s => s

/-- One record of the `users` document (src/main.py lines 78-82). -/
structure UserRecord where
  platform_username : String
  start_date : DateVal
  expire_date : DateVal
deriving DecidableEq

/-- The `users` document: a mapping from user id to record in insertion
order, matching Python dict iteration order. -/
abbrev Users := List (String × UserRecord)

/-- Python `users.get(user_id)` (also decides `user_id in users`). -/
def lookupUser : Users → String → Option UserRecord
  | [], _ => none
  | (k, v) :: rest, uid => if k = uid then some v else lookupUser rest uid

/-- Assignment `users[user_id] = r` for a key that is already present: a
Python dict update in place, keeping the key's position. -/
def updateUser (users : Users) (uid : String) (r : UserRecord) : Users :=
  users.map (fun p => if p.1 = uid then (uid, r) else p)

/-- `UserManager.add_or_update_user` (src/main.py lines 72-99), with `now`
the value of `datetime.now()` during the call.  Returns the saved `users`
document together with the resulting record (the function's return value). -/
def add_or_update_user (users : Users) (now : DateTime) (user_id : String)
    (username : Option String) (extend_days : Int) : Users × UserRecord :=
  match lookupUser users user_id with
  | none =>
    let r : UserRecord :=
      { platform_username := username.getD ""
        start_date := DateVal.valid now.day
        expire_date :=
          if extend_days > 0 then DateVal.valid (now.day + extend_days)
          else DateVal.valid now.day }
    (users ++ [(user_id, r)], r)
  | some old =>
    let r1 : UserRecord :=
      match username with
      | some u => { old with platform_username := u }
      | none => old
    let r2 : UserRecord :=
      if extend_days > 0 then
        match r1.expire_date with
        | DateVal.valid cur =>
          -- start_from = max(current_expire, datetime.now()); the stored
          -- expiry parses to midnight of day cur, and Python max keeps the
          -- first argument on ties.  Only the day of start_from survives
          -- the final strftime.
          let start_from_day : Int :=
            if dtLt ⟨cur, 0⟩ now then now.day else cur
          { r1 with expire_date := DateVal.valid (start_from_day + extend_days) }
        | DateVal.malformed _ =>
          { r1 with expire_date := DateVal.valid (now.day + extend_days) }
      else r1
    (updateUser users user_id r2, r2)

/-- `UserManager.get_user_info` (src/main.py lines 101-104). -/
def get_user_info (users : Users) (user_id : String) : Option UserRecord :=
  lookupUser users user_id

/-- `UserManager.get_users_by_expire_date` (src/main.py lines 106-113):
append to the result every entry whose stored expire-date text equals the
target text, in iteration order. -/
def get_users_by_expire_date (users : Users) (target : DateVal) : Users :=
  users.foldl (fun acc p => if p.2.expire_date = target then acc ++ [p] else acc) []

/-- `UserManager.get_expiring_users` (src/main.py lines 115-118): the target
text is `strftime` of `now + timedelta(days=days_before)`. -/
def get_expiring_users (users : Users) (now : DateTime) (days_before : Int) : Users :=
  get_users_by_expire_date users (DateVal.valid (now.day + days_before))

/-- `UserManager.get_expired_users` (src/main.py lines 120-123): the target
text is `strftime` of `now - timedelta(days=days_after)`. -/
def get_expired_users (users : Users) (now : DateTime) (days_after : Int) : Users :=
  get_users_by_expire_date users (DateVal.valid (now.day - days_after))

/-- The `config` document (src/main.py lines 28-34). -/
structure Config where
  admins : List String
  reminder_enabled : Bool
  reminder_days_before : List Int
  expired_check_days : Int
  group_id : String
deriving DecidableEq

/-- Message bodies are sequences of characters; Python string operations on
them are modelled directly on the character list. -/
abbrev Text := List Char

/-- Python `str.strip()`: drop leading and trailing whitespace. -/
def pyStrip (s : Text) : Text :=
  ((s.dropWhile Char.isWhitespace).reverse.dropWhile Char.isWhitespace).reverse

/-- Python `str.split()` with no separator: split on runs of whitespace,
discarding empty pieces. -/
def splitWsAux : Text → Text → List Text
  | [], cur => if cur = [] then [] else [cur.reverse]
  | c :: cs, cur =>
    if Char.isWhitespace c then
      if cur = [] then splitWsAux cs [] else cur.reverse :: splitWsAux cs []
    else splitWsAux cs (c :: cur)

/-- Python `str.split()` with no separator. -/
def pySplit (s : Text) : List Text := splitWsAux s []

/-- Python `str.lower()` (the command tokens only contain ASCII letters and
CJK characters, on which ASCII lowering agrees with Python). -/
def pyLower (s : Text) : Text := s.map Char.toLower

/-- Python `int(s)` restricted to the shapes that occur here: optional
whitespace, an optional sign, then one or more ASCII digits (a stdlib
function external to the repository; underscore separators are omitted). -/
def digitsToNat (ds : Text) : Nat :=
  ds.foldl (fun acc c => acc * 10 + (c.toNat - '0'.toNat)) 0

/-- Python `int(s)`, `none` standing for a raised `ValueError`. -/
def pyInt (s : Text) : Option Int :=
  match pyStrip s with
  | '+' :: ds => if ds ≠ [] ∧ ds.all Char.isDigit then some (digitsToNat ds : Int) else none
  | '-' :: ds => if ds ≠ [] ∧ ds.all Char.isDigit then some (-(digitsToNat ds : Int)) else none
  | ds => if ds ≠ [] ∧ ds.all Char.isDigit then some (digitsToNat ds : Int) else none

/-- `UserManagementPlugin.is_admin` (src/main.py lines 152-154): membership
of the sender id in the cached admin list (ids are already strings). -/
def is_admin (admins : List String) (user_id : String) : Bool :=
  admins.any (fun a => decide (a = user_id))

/-- The characters of the literal part `[CQ:at,qq=` of the CQ-code pattern
`\[CQ:at,qq=(\d+)\]` (src/main.py line 161). -/
def cqCode : Text := "[CQ:at,qq=".toList

/-- Strip a literal pattern piece from the front of the text: `some rest`
when the text is the piece followed by `rest`. -/
def dropPat : Text → Text → Option Text
  | [], cs => some cs
  | _ :: _, [] => none
  | p :: ps, c :: cs => if c = p then dropPat ps cs else none

/-- The greedy `\d+` step of the regex engine: the maximal run of digits at
the front of the text, together with the remainder. -/
def takeDigits : Text → Text × Text
  | [] => ([], [])
  | c :: cs =>
    if c.isDigit then
      let r := takeDigits cs
      (c :: r.1, r.2)
    else ([], c :: cs)

/-- Match of the regex `\[CQ:at,qq=(\d+)\]` anchored at the front of the
text, returning group 1.  The greedy `\d+` is maximal and the following
literal `]` is not a digit, so maximal-munch needs no backtracking. -/
def matchCQHere (cs : Text) : Option String :=
  match dropPat cqCode cs with
  | none => none
  | some rest =>
    if (takeDigits rest).1 = [] then none
    else
      match (takeDigits rest).2 with
      | ']' :: _ => some (String.mk (takeDigits rest).1)
      | _ => none

/-- `re.search` of the CQ-code pattern: try every start position from the
left, first successful anchor wins. -/
def searchCQ : Text → Option String
  | [] => none
  | c :: cs =>
    match matchCQHere (c :: cs) with
    | some r => some r
    | none => searchCQ cs

/-- Match of the regex `@(\d+)` anchored at the front of the text. -/
def matchAtHere : Text → Option String
  | '@' :: rest =>
    if (takeDigits rest).1 = [] then none else some (String.mk (takeDigits rest).1)
  | _ => none

/-- `re.search` of the bare-mention pattern `@(\d+)`. -/
def searchAt : Text → Option String
  | [] => none
  | c :: cs =>
    match matchAtHere (c :: cs) with
    | some r => some r
    | none => searchAt cs

/-- `UserManagementPlugin.extract_at_user` (src/main.py lines 156-172): the
CQ-code pattern is tried over the whole text first, then the bare `@digits`
pattern, and `none` is returned when neither matches. -/
def extract_at_user (message_text : Text) : Option String :=
  match searchCQ message_text with
  | some r => some r
  | none => searchAt message_text

/-- `UserManagementPlugin.handle_yhm_command` (src/main.py lines 174-193).
Returns the response text and the resulting `users` document. -/
def handle_yhm_command (users : Users) (admins : List String) (now : DateTime)
    (message_parts : List Text) (message_text : Text) (sender_id : String) :
    String × Users :=
  if is_admin admins sender_id = false then
    ("❌ 权限不足，仅管理员可使用此指令", users)
  else
    match message_parts with
    | _ :: uname :: _ =>
      let username := String.mk uname
      match extract_at_user message_text with
      | none => ("❌ 请@目标用户", users)
      | some target =>
        let res := add_or_update_user users now target (some username) 0
        ("✅ 已为用户 @" ++ target ++ " 设置外部平台用户名：" ++ username, res.1)
    | _ => ("❌ 指令格式错误，请使用：/yhm [外部平台用户名] @目标用户", users)

/-- `UserManagementPlugin.handle_extend_time_command` (src/main.py lines
195-220).  Returns the response text and the resulting `users` document. -/
def handle_extend_time_command (users : Users) (admins : List String) (now : DateTime)
    (message_parts : List Text) (message_text : Text) (sender_id : String) :
    String × Users :=
  if is_admin admins sender_id = false then
    ("❌ 权限不足，仅管理员可使用此指令", users)
  else
    match message_parts with
    | _ :: daysTok :: _ =>
      match pyInt daysTok with
      | none => ("❌ 时间长度必须是数字", users)
      | some days =>
        if days ≤ 0 then ("❌ 天数必须大于0", users)
        else
          match extract_at_user message_text with
          | none => ("❌ 请@目标用户", users)
          | some target =>
            let res := add_or_update_user users now target none days
            ("✅ 已为用户 @" ++ target ++ " 延长服务时间 " ++ toString days ++
              " 天\n新的到期时间：" ++ dvRepr res.2.expire_date, res.1)
    | _ => ("❌ 指令格式错误，请使用：/续时 [天数] @目标用户", users)

/-- `UserManagementPlugin.handle_check_expire_command` (src/main.py lines
222-253): a pure read of the store; `now = datetime.now()`. -/
def handle_check_expire_command (users : Users) (now : DateTime)
    (sender_id : String) : String :=
  match get_user_info users sender_id with
  | none => "❌ 未找到您的服务记录，请联系管理员"
  | some info =>
    let status_text :=
      match info.expire_date with
      | DateVal.malformed _ => "日期格式错误"
      | DateVal.valid e =>
        -- days_left = (expire_datetime - datetime.now()).days where
        -- expire_datetime is midnight of day e
        let days_left := timedelta_days ((e - now.day) * usPerDay - (now.time : Int))
        if days_left > 0 then "距离到期还有：" ++ toString days_left ++ " 天"
        else if days_left = 0 then "今天到期"
        else "已过期 " ++ toString days_left.natAbs ++ " 天"
    "📊 您的服务状态：\n👤 外部平台用户名：" ++ info.platform_username ++
      "\n📅 开户时间：" ++ dvRepr info.start_date ++
      "\n⏰ 到期时间：" ++ dvRepr info.expire_date ++
      "\n⏳ " ++ status_text

/-- The per-record status text of `UserManagementPlugin.get_user_list`
(src/main.py lines 298-309). -/
def user_status_string (info : UserRecord) (now : DateTime) : String :=
  match info.expire_date with
  | DateVal.malformed _ => "日期错误"
  | DateVal.valid e =>
    let days_left := timedelta_days ((e - now.day) * usPerDay - (now.time : Int))
    if days_left > 0 then "剩余" ++ toString days_left ++ "天"
    else if days_left = 0 then "今天到期"
    else "已过期" ++ toString days_left.natAbs ++ "天"

/-- `UserManagementPlugin.get_user_list` (src/main.py lines 286-313): a pure
read of the store. -/
def get_user_list (users : Users) (now : DateTime) : String :=
  if users = [] then "📋 当前没有用户记录"
  else
    users.foldl
      (fun acc p =>
        acc ++ "\n👤 " ++ p.1 ++ " (" ++ p.2.platform_username ++ ")\n   到期: " ++
          dvRepr p.2.expire_date ++ " (" ++ user_status_string p.2 now ++ ")\n")
      "📋 用户列表：\n"

/-- `UserManagementPlugin.get_help_text` (src/main.py lines 315-331). -/
def get_help_text (admins : List String) (sender_id : String) : String :=
  let base := "📖 用户管理插件帮助\n\n🔸 用户指令：\n/查看到期时间 - 查看自己的服务状态\n/帮助 - 显示此帮助信息"
  if is_admin admins sender_id then
    base ++ "\n\n🔸 管理员指令：\n/yhm [用户名] @用户 - 设置用户的外部平台用户名\n/续时 [天数] @用户 - 为用户延长服务时间\n/用户列表 - 查看所有用户列表"
  else base

/-- `UserManagementPlugin.process_message` (src/main.py lines 255-284):
strip, split on whitespace, lowercase the first token, dispatch.  Returns
the optional response (`none` is Python `None`, a silent ignore) and the
resulting `users` document. -/
def process_message (users : Users) (admins : List String) (now : DateTime)
    (message_text : Text) (sender_id : String) : Option String × Users :=
  match pySplit (pyStrip message_text) with
  | [] => (none, users)
  | c0 :: rest =>
    if pyLower c0 = "/yhm".toList then
      (some (handle_yhm_command users admins now (c0 :: rest) message_text sender_id).1,
       (handle_yhm_command users admins now (c0 :: rest) message_text sender_id).2)
    else if pyLower c0 = "/续时".toList then
      (some (handle_extend_time_command users admins now (c0 :: rest) message_text sender_id).1,
       (handle_extend_time_command users admins now (c0 :: rest) message_text sender_id).2)
    else if pyLower c0 = "/查看到期时间".toList then
      (some (handle_check_expire_command users now sender_id), users)
    else if pyLower c0 = "/用户列表".toList ∧ is_admin admins sender_id = true then
      (some (get_user_list users now), users)
    else if pyLower c0 = "/帮助".toList then
      (some (get_help_text admins sender_id), users)
    else (none, users)

/-- One observable effect of a reminder-loop iteration. -/
inductive Event where
  | loadConfig
  | broadcast (msg : String)
  | privateMsg (toAdmin : String) (msg : String)
  | sleep (seconds : Nat)
deriving DecidableEq

/-- The broadcast text for a user expiring in three days (src/main.py lines
360-363). -/
def remind3Msg (uid : String) (info : UserRecord) : String :=
  let base := "⚠️ @" ++ uid ++ " 您的服务将在3天后（" ++ dvRepr info.expire_date ++
    "）到期，请及时续期！"
  if info.platform_username ≠ "" then base ++ "\n用户名：" ++ info.platform_username
  else base

/-- The broadcast text for a user expiring today (src/main.py lines
371-374). -/
def remindTodayMsg (uid : String) (info : UserRecord) : String :=
  let base := "🚨 @" ++ uid ++ " 您的服务今天到期（" ++ dvRepr info.expire_date ++
    "），这是最后提醒！"
  if info.platform_username ≠ "" then base ++ "\n用户名：" ++ info.platform_username
  else base

/-- The private notice sent to admins about an expired user (src/main.py
line 383). -/
def expiredAdminMsg (uid : String) (info : UserRecord) : String :=
  "🔴 管理员提醒：用户 @" ++ uid ++ " (用户名: " ++ info.platform_username ++
    ") 的服务已于 " ++ dvRepr info.expire_date ++ " 到期，请及时进行关停操作。"

/-- `UserManagementPlugin.check_and_send_reminders` (src/main.py lines
350-388) as the trace of effects of one call: the fresh configuration load,
then — unless `reminder_enabled` is false — one broadcast per user expiring
in three days, one per user expiring today, and one private message per
admin per user whose expiry was exactly one day ago.  `self_admins` is the
plugin's cached admin list used by the expired-user loop. -/
def check_and_send_reminders (users : Users) (storedConfig : Config)
    (self_admins : List String) (now : DateTime) : List Event :=
  Event.loadConfig ::
    (if storedConfig.reminder_enabled = false then []
     else
       ((get_expiring_users users now 3).foldl
           (fun acc p => acc ++ [Event.broadcast (remind3Msg p.1 p.2)]) []) ++
       ((get_expiring_users users now 0).foldl
           (fun acc p => acc ++ [Event.broadcast (remindTodayMsg p.1 p.2)]) []) ++
       ((get_expired_users users now 1).foldl
           (fun acc p =>
             self_admins.foldl
               (fun acc2 a => acc2 ++ [Event.privateMsg a (expiredAdminMsg p.1 p.2)])
               acc)
           []))

/-- One iteration of the `start_reminder_task` loop body (src/main.py lines
341-348): run the scan, then sleep for a fixed 24 hours (the sleep happens
whether or not the scan body was skipped). -/
def reminder_iteration (users : Users) (storedConfig : Config)
    (self_admins : List String) (now : DateTime) : List Event :=
  check_and_send_reminders users storedConfig self_admins now ++
    [Event.sleep (24 * 60 * 60)]

/-- The result value of `UserManagementPlugin.save_settings`. -/
structure SaveResult where
  success : Bool
  message : String
deriving DecidableEq

/-- The argument of `UserManagementPlugin.save_settings`: the two optional
document blobs ("users_json" in settings_data / "config" in settings_data). -/
structure SettingsData where
  users_json : Option String
  config : Option Config

/-- The state touched by `save_settings`: the two persisted documents plus
the in-memory cached admin list and group id. -/
structure PluginState where
  usersFile : Users
  configFile : Config
  memAdmins : List String
  memGroupId : String

/-- The tail of `save_settings` after the users_json step (src/main.py
lines 456-466): persist the config document when present, refresh the
cached admins and group id, and report success. -/
def save_settings_config_step (st : PluginState) (sd : SettingsData) :
    SaveResult × PluginState :=
  match sd.config with
  | some c =>
    ({ success := true, message := "设置保存成功" },
     { st with configFile := c, memAdmins := c.admins, memGroupId := c.group_id })
  | none => ({ success := true, message := "设置保存成功" }, st)

/-- `UserManagementPlugin.save_settings` (src/main.py lines 448-472),
parameterised by `loads`, the external stdlib `json.loads` applied to the
users blob (`Except.error e` standing for a raised `json.JSONDecodeError`
with text `e`).  A decode failure is caught by the `except` clause and
reported as a structured failure result; nothing is persisted in that
case. -/
def save_settings (loads : String → Except String Users) (st : PluginState)
    (sd : SettingsData) : SaveResult × PluginState :=
  match sd.users_json with
  | none => save_settings_config_step st sd
  | some blob =>
    match loads blob with
    | Except.error e =>
      ({ success := false, message := "JSON格式错误: " ++ e }, st)
    | Except.ok newUsers =>
      save_settings_config_step { st with usersFile := newUsers } sd

/-! ### Helper lemmas about the record store -/

theorem updateUser_cons (a : String) (b : UserRecord) (rest : Users)
    (uid : String) (r : UserRecord) :
    updateUser ((a, b) :: rest) uid r
      = (if a = uid then (uid, r) else (a, b)) :: updateUser rest uid r := rfl

theorem lookupUser_cons (a : String) (b : UserRecord) (rest : Users) (uid : String) :
    lookupUser ((a, b) :: rest) uid = if a = uid then some b else lookupUser rest uid := rfl

theorem lookupUser_updateUser_self (users : Users) (uid : String) (r old : UserRecord)
    (hl : lookupUser users uid = some old) :
    lookupUser (updateUser users uid r) uid = some r := by
  induction users with
  | nil => simp [lookupUser] at hl
  | cons p rest ih =>
    obtain ⟨a, b⟩ := p
    rw [updateUser_cons]
    by_cases ha : a = uid
    · rw [if_pos ha, lookupUser_cons, if_pos rfl]
    · rw [if_neg ha, lookupUser_cons, if_neg ha]
      rw [lookupUser_cons, if_neg ha] at hl
      exact ih hl

theorem lookupUser_updateUser_ne (users : Users) (uid : String) (r : UserRecord)
    (other : String) (h : other ≠ uid) :
    lookupUser (updateUser users uid r) other = lookupUser users other := by
  induction users with
  | nil => simp [updateUser, lookupUser]
  | cons p rest ih =>
    obtain ⟨a, b⟩ := p
    rw [updateUser_cons]
    by_cases ha : a = uid
    · rw [if_pos ha, lookupUser_cons, lookupUser_cons]
      have h1 : uid ≠ other := fun hh => h hh.symm
      have h2 : a ≠ other := by rw [ha]; exact h1
      rw [if_neg h1, if_neg h2]
      exact ih
    · rw [if_neg ha, lookupUser_cons, lookupUser_cons]
      by_cases hao : a = other
      · rw [if_pos hao, if_pos hao]
      · rw [if_neg hao, if_neg hao]
        exact ih

theorem add_existing_store (users : Users) (now : DateTime) (uid : String)
    (username : Option String) (k : Int) (old : UserRecord)
    (hl : lookupUser users uid = some old) :
    (add_or_update_user users now uid username k).1
      = updateUser users uid (add_or_update_user users now uid username k).2 := by
  unfold add_or_update_user
  rw [hl]

theorem add_existing_username (users : Users) (now : DateTime) (uid : String)
    (username : Option String) (k : Int) (old : UserRecord)
    (hl : lookupUser users uid = some old) :
    (add_or_update_user users now uid username k).2.platform_username
      = (match username with
         | some u => u
         | none => old.platform_username) := by
  unfold add_or_update_user
  rw [hl]
  cases username with
  | none =>
    by_cases hk : k > 0
    · simp only [if_pos hk]
      cases he : old.expire_date <;> simp
    · simp [if_neg hk]
  | some u =>
    by_cases hk : k > 0
    · simp only [if_pos hk]
      cases he : old.expire_date <;> simp
    · simp [if_neg hk]

theorem add_existing_start_date (users : Users) (now : DateTime) (uid : String)
    (username : Option String) (k : Int) (old : UserRecord)
    (hl : lookupUser users uid = some old) :
    (add_or_update_user users now uid username k).2.start_date = old.start_date := by
  unfold add_or_update_user
  rw [hl]
  cases username with
  | none =>
    by_cases hk : k > 0
    · simp only [if_pos hk]
      cases he : old.expire_date <;> simp
    · simp [if_neg hk]
  | some u =>
    by_cases hk : k > 0
    · simp only [if_pos hk]
      cases he : old.expire_date <;> simp
    · simp [if_neg hk]

theorem add_existing_expire_of_nonpos (users : Users) (now : DateTime) (uid : String)
    (username : Option String) (k : Int) (old : UserRecord)
    (hl : lookupUser users uid = some old) (hk : ¬ k > 0) :
    (add_or_update_user users now uid username k).2.expire_date = old.expire_date := by
  unfold add_or_update_user
  rw [hl]
  cases username <;> simp [if_neg hk]

theorem start_from_day_eq_max (e : Int) (now : DateTime) :
    (if dtLt ⟨e, 0⟩ now then now.day else e) = max e now.day := by
  by_cases hd : dtLt ⟨e, 0⟩ now
  · rw [if_pos hd]
    have hd' : e < now.day ∨ (e = now.day ∧ 0 < now.time) := hd
    have hle : e ≤ now.day := by rcases hd' with h | ⟨h, _⟩ <;> omega
    exact (max_eq_right hle).symm
  · rw [if_neg hd]
    have hd' : ¬ (e < now.day ∨ (e = now.day ∧ 0 < now.time)) := hd
    have h1 : ¬ e < now.day := fun hc => hd' (Or.inl hc)
    have hle : now.day ≤ e := by omega
    exact (max_eq_left hle).symm

theorem add_existing_expire_of_pos (users : Users) (now : DateTime) (uid : String)
    (username : Option String) (k : Int) (old : UserRecord) (e : Int)
    (hl : lookupUser users uid = some old)
    (he : old.expire_date = DateVal.valid e) (hk : 0 < k) :
    (add_or_update_user users now uid username k).2.expire_date
      = DateVal.valid (max e now.day + k) := by
  unfold add_or_update_user
  rw [hl]
  obtain ⟨pu, sd, ed⟩ := old
  simp only at he
  subst he
  cases username with
  | none => simp only [if_pos hk, start_from_day_eq_max]
  | some u => simp only [if_pos hk, start_from_day_eq_max]

/-! ### Claim theorems -/

/-- C1: for `add_or_update_user` on an existing record with a well-formed
stored expire date `e` and `extend_days > 0`, the persisted new expire date
equals `max(e, today) + extend_days`; in particular a record whose expiry
is ten days in the past, extended by 3 on day `D`, ends at `D + 3` (see the
witness). -/
theorem extend_expiry_uses_max_base (users : Users) (now : DateTime) (uid : String)
    (username : Option String) (k : Int) (old : UserRecord) (e : Int)
    (hl : lookupUser users uid = some old)
    (he : old.expire_date = DateVal.valid e) (hk : 0 < k) :
    (add_or_update_user users now uid username k).2.expire_date
        = DateVal.valid (max e now.day + k)
    ∧ lookupUser (add_or_update_user users now uid username k).1 uid
        = some (add_or_update_user users now uid username k).2 := by
  constructor
  · exact add_existing_expire_of_pos users now uid username k old e hl he hk
  · rw [add_existing_store users now uid username k old hl]
    exact lookupUser_updateUser_self users uid _ old hl

/-- C1 witness: user `u2` with expire date `D - 10 = 90`, extended by 3 on
day `D = 100` (at five microseconds past midnight), ends with expire date
`103 = D + 3`. -/
theorem extend_expiry_uses_max_base_witness :
    lookupUser [("u2", ⟨"", DateVal.valid 90, DateVal.valid 90⟩)] "u2"
        = some ⟨"", DateVal.valid 90, DateVal.valid 90⟩
    ∧ (0 : Int) < 3
    ∧ (add_or_update_user [("u2", ⟨"", DateVal.valid 90, DateVal.valid 90⟩)]
          ⟨100, 5⟩ "u2" none 3).2.expire_date = DateVal.valid 103 := by
  refine ⟨by decide, by decide, ?_⟩
  have h := extend_expiry_uses_max_base
    [("u2", ⟨"", DateVal.valid 90, DateVal.valid 90⟩)] ⟨100, 5⟩ "u2" none 3
    ⟨"", DateVal.valid 90, DateVal.valid 90⟩ 90 (by decide) (by decide) (by decide)
  have h2 : max (90 : Int) 100 + 3 = 103 := by decide
  rw [h2] at h
  exact h.1

/-- C10: on an existing record, `add_or_update_user` with a username and
`extend_days = 0` changes exactly the `platform_username` field (start and
expire dates untouched); with `extend_days > 0` and no username it leaves
`platform_username` and `start_date` untouched; in both cases every other
user's record is unchanged. -/
theorem add_or_update_frame (users : Users) (now : DateTime) (uid : String)
    (old : UserRecord) (hl : lookupUser users uid = some old) :
    (∀ u : String,
      (add_or_update_user users now uid (some u) 0).2
          = { old with platform_username := u }
      ∧ lookupUser (add_or_update_user users now uid (some u) 0).1 uid
          = some { old with platform_username := u }
      ∧ ∀ other : String, other ≠ uid →
          lookupUser (add_or_update_user users now uid (some u) 0).1 other
            = lookupUser users other)
    ∧ ∀ k : Int, 0 < k →
        (add_or_update_user users now uid none k).2.platform_username
            = old.platform_username
        ∧ (add_or_update_user users now uid none k).2.start_date = old.start_date
        ∧ lookupUser (add_or_update_user users now uid none k).1 uid
            = some (add_or_update_user users now uid none k).2
        ∧ ∀ other : String, other ≠ uid →
            lookupUser (add_or_update_user users now uid none k).1 other
              = lookupUser users other := by
  constructor
  · intro u
    have hrec : (add_or_update_user users now uid (some u) 0).2
        = { old with platform_username := u } := by
      unfold add_or_update_user
      rw [hl]
      simp
    refine ⟨hrec, ?_, ?_⟩
    · rw [add_existing_store users now uid (some u) 0 old hl, hrec]
      exact lookupUser_updateUser_self users uid _ old hl
    · intro other hne
      rw [add_existing_store users now uid (some u) 0 old hl]
      exact lookupUser_updateUser_ne users uid _ other hne
  · intro k hk
    refine ⟨?_, add_existing_start_date users now uid none k old hl, ?_, ?_⟩
    · simpa using add_existing_username users now uid none k old hl
    · rw [add_existing_store users now uid none k old hl]
      exact lookupUser_updateUser_self users uid _ old hl
    · intro other hne
      rw [add_existing_store users now uid none k old hl]
      exact lookupUser_updateUser_ne users uid _ other hne

/-- C10 witness: on a two-user store, setting the username of `a` keeps its
dates, and extending `a` leaves `b`'s record untouched. -/
theorem add_or_update_frame_witness :
    lookupUser [("a", ⟨"x", DateVal.valid 1, DateVal.valid 9⟩),
                ("b", ⟨"y", DateVal.valid 2, DateVal.valid 8⟩)] "a"
        = some ⟨"x", DateVal.valid 1, DateVal.valid 9⟩
    ∧ (add_or_update_user [("a", ⟨"x", DateVal.valid 1, DateVal.valid 9⟩),
                           ("b", ⟨"y", DateVal.valid 2, DateVal.valid 8⟩)]
          ⟨5, 1⟩ "a" (some "z") 0).2 = ⟨"z", DateVal.valid 1, DateVal.valid 9⟩
    ∧ lookupUser (add_or_update_user [("a", ⟨"x", DateVal.valid 1, DateVal.valid 9⟩),
                                      ("b", ⟨"y", DateVal.valid 2, DateVal.valid 8⟩)]
          ⟨5, 1⟩ "a" none 2).1 "b" = some ⟨"y", DateVal.valid 2, DateVal.valid 8⟩ := by
  refine ⟨by decide, ?_, ?_⟩
  · exact ((add_or_update_frame
      [("a", ⟨"x", DateVal.valid 1, DateVal.valid 9⟩),
       ("b", ⟨"y", DateVal.valid 2, DateVal.valid 8⟩)] ⟨5, 1⟩ "a"
      ⟨"x", DateVal.valid 1, DateVal.valid 9⟩ (by decide)).1 "z").1
  · have h := ((add_or_update_frame
      [("a", ⟨"x", DateVal.valid 1, DateVal.valid 9⟩),
       ("b", ⟨"y", DateVal.valid 2, DateVal.valid 8⟩)] ⟨5, 1⟩ "a"
      ⟨"x", DateVal.valid 1, DateVal.valid 9⟩ (by decide)).2 2 (by decide)).2.2.2
      "b" (by decide)
    rw [h]
    decide

/-- A finite sequence of extension calls against the store: each operation
carries the `datetime.now()` of that call and its day count, and is run
through `add_or_update_user` with no username. -/
def extendSeq (users : Users) (uid : String) (ops : List (DateTime × Int)) : Users :=
  ops.foldl (fun us op => (add_or_update_user us op.1 uid none op.2).1) users

/-- The well-formed expire day of `uid`'s stored record, when present. -/
def expire_of (users : Users) (uid : String) : Option Int :=
  match lookupUser users uid with
  | none => none
  | some r =>
    match r.expire_date with
    | DateVal.valid e => some e
    | DateVal.malformed _ => none

theorem expire_of_none (users : Users) (uid : String)
    (hl : lookupUser users uid = none) : expire_of users uid = none := by
  unfold expire_of
  rw [hl]

theorem expire_of_some (users : Users) (uid : String) (old : UserRecord)
    (hl : lookupUser users uid = some old) :
    expire_of users uid
      = (match old.expire_date with
         | DateVal.valid e => some e
         | DateVal.malformed _ => none) := by
  unfold expire_of
  rw [hl]

theorem extend_step_expire_of (users : Users) (now : DateTime) (uid : String)
    (k : Int) (hk : 0 < k) (e : Int) (he : expire_of users uid = some e) :
    expire_of (add_or_update_user users now uid none k).1 uid
      = some (max e now.day + k) := by
  cases hl : lookupUser users uid with
  | none =>
    rw [expire_of_none users uid hl] at he
    exact absurd he (by simp)
  | some old =>
    rw [expire_of_some users uid old hl] at he
    cases hed : old.expire_date with
    | malformed s => rw [hed] at he; simp at he
    | valid e0 =>
      rw [hed] at he
      simp only [Option.some.injEq] at he
      subst he
      have hexp := add_existing_expire_of_pos users now uid none k old e0 hl hed hk
      have hstore := add_existing_store users now uid none k old hl
      have hlook : lookupUser (add_or_update_user users now uid none k).1 uid
          = some (add_or_update_user users now uid none k).2 := by
        rw [hstore]
        exact lookupUser_updateUser_self users uid _ old hl
      rw [expire_of_some _ uid _ hlook, hexp]

theorem extendSeq_expire_mono (uid : String) (ops : List (DateTime × Int)) :
    ∀ users e, (∀ op ∈ ops, 0 < op.2) → expire_of users uid = some e →
      ∃ e', expire_of (extendSeq users uid ops) uid = some e' ∧ e ≤ e' := by
  induction ops with
  | nil =>
    intro users e _ he
    exact ⟨e, by simpa [extendSeq] using he, le_refl e⟩
  | cons op rest ih =>
    intro users e hops he
    have hk : 0 < op.2 := hops op (List.mem_cons_self op rest)
    have hstep := extend_step_expire_of users op.1 uid op.2 hk e he
    have hrest : ∀ p ∈ rest, 0 < p.2 := fun p hp => hops p (List.mem_cons_of_mem op hp)
    obtain ⟨e', h1, h2⟩ := ih _ _ hrest hstep
    refine ⟨e', h1, ?_⟩
    have hm := le_max_left e op.1.day
    omega

/-- C2: along any finite sequence of extension calls, each with a positive
day count, the record's well-formed expire date after each call is at least
the expire date before that call, whatever the `now` of each call (even one
past the previous expiry). -/
theorem extension_sequence_monotone (users : Users) (uid : String)
    (ops : List (DateTime × Int)) (e : Int)
    (hops : ∀ op ∈ ops, 0 < op.2)
    (he : expire_of users uid = some e)
    (pre : List (DateTime × Int)) (op : DateTime × Int) (post : List (DateTime × Int))
    (hsplit : ops = pre ++ op :: post) :
    ∃ a b, expire_of (extendSeq users uid pre) uid = some a
      ∧ expire_of (extendSeq users uid (pre ++ [op])) uid = some b
      ∧ a ≤ b := by
  have hpre : ∀ p ∈ pre, 0 < p.2 := by
    intro p hp
    exact hops p (by rw [hsplit]; exact List.mem_append_left _ hp)
  obtain ⟨a, ha, hae⟩ := extendSeq_expire_mono uid pre users e hpre he
  have hk : 0 < op.2 := by
    refine hops op ?_
    rw [hsplit]
    exact List.mem_append_right _ (List.mem_cons_self op post)
  have hstep := extend_step_expire_of (extendSeq users uid pre) op.1 uid op.2 hk a ha
  refine ⟨a, max a op.1.day + op.2, ha, ?_, ?_⟩
  · have hcat : extendSeq users uid (pre ++ [op])
        = (add_or_update_user (extendSeq users uid pre) op.1 uid none op.2).1 := by
      unfold extendSeq
      rw [List.foldl_append]
      rfl
    rw [hcat]
    exact hstep
  · have hm := le_max_left a op.1.day
    omega

/-- C2 witness: a record at expire day 10, extended by 5 on day 20, moves to
some expire day that is at least 10. -/
theorem extension_sequence_monotone_witness :
    ∃ a b, expire_of (extendSeq [("u", ⟨"", DateVal.valid 0, DateVal.valid 10⟩)] "u" []) "u"
        = some a
      ∧ expire_of (extendSeq [("u", ⟨"", DateVal.valid 0, DateVal.valid 10⟩)] "u"
          [(⟨20, 1⟩, 5)]) "u" = some b
      ∧ a ≤ b := by
  have h := extension_sequence_monotone
    [("u", ⟨"", DateVal.valid 0, DateVal.valid 10⟩)] "u"
    [(⟨20, 1⟩, 5)] 10 (by decide) (by decide) [] (⟨20, 1⟩, 5) [] rfl
  simpa using h

theorem foldl_append_filter (users : Users) (target : DateVal) :
    ∀ acc : Users,
      users.foldl (fun acc p => if p.2.expire_date = target then acc ++ [p] else acc) acc
        = acc ++ users.filter (fun p => decide (p.2.expire_date = target)) := by
  induction users with
  | nil => intro acc; simp
  | cons p rest ih =>
    intro acc
    by_cases h : p.2.expire_date = target
    · rw [List.foldl_cons, if_pos h, ih, List.filter_cons_of_pos (by simpa using h)]
      simp [List.append_assoc]
    · rw [List.foldl_cons, if_neg h, ih, List.filter_cons_of_neg (by simpa using h)]

/-- C5: `get_users_by_expire_date` returns, in iteration order, exactly the
entries whose stored expire-date text equals the query text, and the
expiring-in / expired-since wrappers delegate to the same exact-date scan at
`today + days` and `today - days` respectively. -/
theorem expire_date_scan_spec (users : Users) (target : DateVal) (now : DateTime)
    (d1 d2 : Int) :
    get_users_by_expire_date users target
        = users.filter (fun p => decide (p.2.expire_date = target))
    ∧ (∀ uid r, (uid, r) ∈ get_users_by_expire_date users target
        ↔ (uid, r) ∈ users ∧ r.expire_date = target)
    ∧ get_expiring_users users now d1
        = get_users_by_expire_date users (DateVal.valid (now.day + d1))
    ∧ get_expired_users users now d2
        = get_users_by_expire_date users (DateVal.valid (now.day - d2)) := by
  have hfilter : get_users_by_expire_date users target
      = users.filter (fun p => decide (p.2.expire_date = target)) := by
    unfold get_users_by_expire_date
    simpa using foldl_append_filter users target []
  refine ⟨hfilter, ?_, rfl, rfl⟩
  intro uid r
  rw [hfilter]
  simp [List.mem_filter]

theorem process_message_cons (users : Users) (admins : List String) (now : DateTime)
    (text : Text) (sender : String) (c0 : Text) (rest : List Text)
    (hparts : pySplit (pyStrip text) = c0 :: rest) :
    process_message users admins now text sender
      = (if pyLower c0 = "/yhm".toList then
           (some (handle_yhm_command users admins now (c0 :: rest) text sender).1,
            (handle_yhm_command users admins now (c0 :: rest) text sender).2)
         else if pyLower c0 = "/续时".toList then
           (some (handle_extend_time_command users admins now (c0 :: rest) text sender).1,
            (handle_extend_time_command users admins now (c0 :: rest) text sender).2)
         else if pyLower c0 = "/查看到期时间".toList then
           (some (handle_check_expire_command users now sender), users)
         else if pyLower c0 = "/用户列表".toList ∧ is_admin admins sender = true then
           (some (get_user_list users now), users)
         else if pyLower c0 = "/帮助".toList then
           (some (get_help_text admins sender), users)
         else (none, users)) := by
  unfold process_message
  rw [hparts]

/-- C6: a check-expiry command from a sender id with no record returns the
no-record message and leaves the store exactly as it was (no record is
created). -/
theorem check_expire_unknown_user (users : Users) (admins : List String)
    (now : DateTime) (text : Text) (sender : String) (c0 : Text)
    (hc0 : (pySplit (pyStrip text)).head? = some c0)
    (hcmd : pyLower c0 = "/查看到期时间".toList)
    (hnr : lookupUser users sender = none) :
    process_message users admins now text sender
      = (some "❌ 未找到您的服务记录，请联系管理员", users) := by
  cases hparts : pySplit (pyStrip text) with
  | nil => rw [hparts] at hc0; simp at hc0
  | cons a tl =>
    rw [hparts] at hc0
    simp only [List.head?_cons, Option.some.injEq] at hc0
    subst hc0
    have h1 : pyLower a ≠ "/yhm".toList := by rw [hcmd]; decide
    have h2 : pyLower a ≠ "/续时".toList := by rw [hcmd]; decide
    rw [process_message_cons users admins now text sender a tl hparts,
      if_neg h1, if_neg h2, if_pos hcmd]
    unfold handle_check_expire_command get_user_info
    rw [hnr]

/-- C6 witness: on an empty store, check-expiry from sender `9` returns the
no-record message and the store stays empty. -/
theorem check_expire_unknown_user_witness :
    (pySplit (pyStrip "/查看到期时间".toList)).head? = some "/查看到期时间".toList
    ∧ process_message [] [] ⟨0, 0⟩ "/查看到期时间".toList "9"
        = (some "❌ 未找到您的服务记录，请联系管理员", []) := by
  refine ⟨by decide, ?_⟩
  exact check_expire_unknown_user [] [] ⟨0, 0⟩ "/查看到期时间".toList "9"
    "/查看到期时间".toList (by decide) (by decide) (by decide)

/-- C3 (amended): a set-username or extend command from a non-admin sender
returns the permission-denied message and leaves the store unchanged, while
a list-users command from a non-admin sender is silently ignored (`None`
response) — not answered with the permission-denied message — and also
leaves the store unchanged. -/
theorem admin_only_commands_non_admin (users : Users) (admins : List String)
    (now : DateTime) (text : Text) (sender : String) (c0 : Text)
    (hna : is_admin admins sender = false)
    (hc0 : (pySplit (pyStrip text)).head? = some c0) :
    ((pyLower c0 = "/yhm".toList ∨ pyLower c0 = "/续时".toList) →
      process_message users admins now text sender
        = (some "❌ 权限不足，仅管理员可使用此指令", users))
    ∧ (pyLower c0 = "/用户列表".toList →
      process_message users admins now text sender = (none, users)) := by
  cases hparts : pySplit (pyStrip text) with
  | nil => rw [hparts] at hc0; simp at hc0
  | cons a tl =>
    rw [hparts] at hc0
    simp only [List.head?_cons, Option.some.injEq] at hc0
    subst hc0
    rw [process_message_cons users admins now text sender a tl hparts]
    constructor
    · rintro (hcmd | hcmd)
      · rw [if_pos hcmd]
        unfold handle_yhm_command
        rw [if_pos hna]
      · have h1 : pyLower a ≠ "/yhm".toList := by rw [hcmd]; decide
        rw [if_neg h1, if_pos hcmd]
        unfold handle_extend_time_command
        rw [if_pos hna]
    · intro hcmd
      have h1 : pyLower a ≠ "/yhm".toList := by rw [hcmd]; decide
      have h2 : pyLower a ≠ "/续时".toList := by rw [hcmd]; decide
      have h3 : pyLower a ≠ "/查看到期时间".toList := by rw [hcmd]; decide
      have h4 : ¬ (pyLower a = "/用户列表".toList ∧ is_admin admins sender = true) := by
        rintro ⟨-, hadm⟩
        rw [hna] at hadm
        exact Bool.false_ne_true hadm
      have h5 : pyLower a ≠ "/帮助".toList := by rw [hcmd]; decide
      rw [if_neg h1, if_neg h2, if_neg h3, if_neg h4, if_neg h5]

/-- C3 witness: a non-admin sender issuing the set-username command gets the
permission-denied message and the (empty) store stays unchanged. -/
theorem admin_only_commands_non_admin_witness :
    is_admin [] "9" = false
    ∧ process_message [] [] ⟨0, 0⟩ "/yhm".toList "9"
        = (some "❌ 权限不足，仅管理员可使用此指令", []) := by
  refine ⟨by decide, ?_⟩
  exact (admin_only_commands_non_admin [] [] ⟨0, 0⟩ "/yhm".toList "9"
    "/yhm".toList (by decide) (by decide)).1 (Or.inl (by decide))

/-- C3 counterexample: a list-users command from a non-admin sender is
answered with `None` (silent ignore), not with the permission-denied
message, refuting the claim that all three admin-only commands return the
permission-denied message to non-admins. -/
theorem list_users_non_admin_counterexample :
    (process_message [] [] ⟨0, 0⟩ "/用户列表".toList "9").1 = none
    ∧ (process_message [] [] ⟨0, 0⟩ "/用户列表".toList "9").1
        ≠ some "❌ 权限不足，仅管理员可使用此指令" := by
  decide

/-- C4 evidence: Python computes `days_left = (midnight(expire_date) -
now).days`, which floors; with a record whose expire date is exactly today
(day 20000) and `now` one microsecond past midnight, `days_left = -1`, so
check-expiry renders the "expired 1 day" branch although the claim says a
record expiring today renders "expires today"; the "expires today" branch
fires instead when the expire date is tomorrow (day 20001). -/
theorem check_expire_today_renders_expired :
    handle_check_expire_command
        [("u1", ⟨"alice", DateVal.valid 20000, DateVal.valid 20000⟩)] ⟨20000, 1⟩ "u1"
      = "📊 您的服务状态：\n👤 外部平台用户名：alice\n📅 开户时间：<20000>\n⏰ 到期时间：<20000>\n⏳ 已过期 1 天"
    ∧ handle_check_expire_command
        [("u1", ⟨"alice", DateVal.valid 20000, DateVal.valid 20001⟩)] ⟨20000, 1⟩ "u1"
      = "📊 您的服务状态：\n👤 外部平台用户名：alice\n📅 开户时间：<20000>\n⏰ 到期时间：<20001>\n⏳ 今天到期" := by
  constructor <;> rfl

/-- C8: `save_settings` yields a flag-and-message result; whenever the
users_json blob fails to decode, the result is the structured failure (flag
false, JSON-error message) and no state is persisted — the decode error is
caught instead of propagating. -/
theorem save_settings_invalid_json (loads : String → Except String Users)
    (st : PluginState) (sd : SettingsData) (blob e : String)
    (hb : sd.users_json = some blob) (he : loads blob = Except.error e) :
    save_settings loads st sd
      = ({ success := false, message := "JSON格式错误: " ++ e }, st) := by
  unfold save_settings
  rw [hb]
  show (match loads blob with
    | Except.error e => ({ success := false, message := "JSON格式错误: " ++ e }, st)
    | Except.ok newUsers =>
        save_settings_config_step { st with usersFile := newUsers } sd)
    = ({ success := false, message := "JSON格式错误: " ++ e }, st)
  rw [he]

/-- C8 witness: a blob that the decoder rejects produces the structured
failure result and leaves the state untouched. -/
theorem save_settings_invalid_json_witness :
    save_settings (fun _ => Except.error "Expecting value")
        ⟨[], ⟨[], true, [3, 0], 1, ""⟩, [], ""⟩ ⟨some "not json", none⟩
      = ({ success := false, message := "JSON格式错误: Expecting value" },
         ⟨[], ⟨[], true, [3, 0], 1, ""⟩, [], ""⟩) :=
  save_settings_invalid_json (fun _ => Except.error "Expecting value")
    ⟨[], ⟨[], true, [3, 0], 1, ""⟩, [], ""⟩ ⟨some "not json", none⟩
    "not json" "Expecting value" rfl rfl

theorem foldl_emit_one {α : Type} (l : List α) (f : α → Event) :
    ∀ acc : List Event, l.foldl (fun acc p => acc ++ [f p]) acc = acc ++ l.map f := by
  induction l with
  | nil => intro acc; simp
  | cons a t ih =>
    intro acc
    rw [List.foldl_cons, ih]
    simp

theorem foldl_emit_nested (l : Users) (admins : List String)
    (h : String × UserRecord → String → Event) :
    ∀ acc : List Event,
      l.foldl (fun acc p => admins.foldl (fun acc2 a => acc2 ++ [h p a]) acc) acc
        = acc ++ (l.map (fun p => admins.map (h p))).join := by
  induction l with
  | nil => intro acc; simp
  | cons p t ih =>
    intro acc
    rw [List.foldl_cons, foldl_emit_one admins (h p) acc, ih]
    simp

/-- C7: each reminder-loop iteration starts with a fresh configuration load
and ends with a single fixed 24-hour sleep; when `reminder_enabled` is
false the scan body is skipped entirely, and otherwise the iteration emits
exactly one broadcast per user expiring in three days, then one per user
expiring today, then one private notice to every admin per user expired
exactly one day ago, in that order. -/
theorem reminder_iteration_spec (users : Users) (cfg : Config)
    (admins : List String) (now : DateTime) :
    (cfg.reminder_enabled = false →
      reminder_iteration users cfg admins now
        = [Event.loadConfig, Event.sleep 86400])
    ∧ (cfg.reminder_enabled = true →
      reminder_iteration users cfg admins now
        = Event.loadConfig ::
            ((get_expiring_users users now 3).map
                (fun p => Event.broadcast (remind3Msg p.1 p.2))
              ++ (get_expiring_users users now 0).map
                (fun p => Event.broadcast (remindTodayMsg p.1 p.2))
              ++ ((get_expired_users users now 1).map
                (fun p => admins.map
                  (fun a => Event.privateMsg a (expiredAdminMsg p.1 p.2)))).join
              ++ [Event.sleep 86400])) := by
  constructor
  · intro hoff
    unfold reminder_iteration check_and_send_reminders
    rw [hoff]
    simp
  · intro hon
    unfold reminder_iteration check_and_send_reminders
    rw [hon]
    have h1 := foldl_emit_one (get_expiring_users users now 3)
      (fun p => Event.broadcast (remind3Msg p.1 p.2)) []
    have h2 := foldl_emit_one (get_expiring_users users now 0)
      (fun p => Event.broadcast (remindTodayMsg p.1 p.2)) []
    have h3 := foldl_emit_nested (get_expired_users users now 1) admins
      (fun p a => Event.privateMsg a (expiredAdminMsg p.1 p.2)) []
    simp only [List.nil_append] at h1 h2 h3
    simp only [Bool.true_eq_false, if_false, h1, h2, h3]
    simp [List.append_assoc]

/-- C7 witness: with reminders disabled the iteration trace is just the
configuration load and the 24-hour sleep; with reminders enabled on an
empty store all three scans are empty and only the load and sleep remain. -/
theorem reminder_iteration_spec_witness :
    reminder_iteration [] ⟨[], false, [3, 0], 1, ""⟩ [] ⟨0, 0⟩
        = [Event.loadConfig, Event.sleep 86400]
    ∧ reminder_iteration [] ⟨[], true, [3, 0], 1, ""⟩ ["a1"] ⟨0, 0⟩
        = [Event.loadConfig, Event.sleep 86400] := by
  constructor
  · exact (reminder_iteration_spec [] ⟨[], false, [3, 0], 1, ""⟩ [] ⟨0, 0⟩).1 rfl
  · have h := (reminder_iteration_spec [] ⟨[], true, [3, 0], 1, ""⟩ ["a1"] ⟨0, 0⟩).2 rfl
    rw [h]
    decide

/-! ### Characterisation of the mention-extraction regular expressions -/

/-- A nonempty all-digit character run (a match of `\d+`). -/
def isDigitStr (ds : Text) : Prop := ds ≠ [] ∧ ∀ c ∈ ds, c.isDigit = true

/-- The CQ-code pattern `\[CQ:at,qq=(\d+)\]` matches somewhere in the text. -/
def containsCQ (text : Text) : Prop :=
  ∃ pre ds post, isDigitStr ds ∧ text = pre ++ cqCode ++ ds ++ ']' :: post

/-- The bare-mention pattern `@(\d+)` matches somewhere in the text. -/
def containsAt (text : Text) : Prop :=
  ∃ pre ds post, isDigitStr ds ∧ text = pre ++ '@' :: (ds ++ post)

theorem dropPat_eq_some (p : Text) : ∀ cs rest : Text,
    dropPat p cs = some rest ↔ cs = p ++ rest := by
  induction p with
  | nil =>
    intro cs rest
    simp [dropPat]
  | cons a p ih =>
    intro cs rest
    cases cs with
    | nil =>
      simp [dropPat]
    | cons c cs2 =>
      simp only [dropPat]
      by_cases hc : c = a
      · subst hc
        rw [if_pos rfl, ih cs2 rest]
        simp
      · rw [if_neg hc]
        simp only [List.cons_append, List.cons.injEq]
        constructor
        · intro h; exact absurd h (by simp)
        · rintro ⟨h1, -⟩; exact absurd h1 hc

theorem takeDigits_decomp : ∀ cs : Text,
    cs = (takeDigits cs).1 ++ (takeDigits cs).2
    ∧ (∀ c ∈ (takeDigits cs).1, c.isDigit = true)
    ∧ ∀ d rest, (takeDigits cs).2 = d :: rest → d.isDigit = false := by
  intro cs
  induction cs with
  | nil =>
    refine ⟨rfl, by simp [takeDigits], ?_⟩
    intro d rest h
    exact absurd h (by simp [takeDigits])
  | cons c cs ih =>
    obtain ⟨h1, h2, h3⟩ := ih
    by_cases hd : c.isDigit = true
    · simp only [takeDigits, if_pos hd]
      refine ⟨?_, ?_, h3⟩
      · simpa using h1
      · intro x hx
        rcases List.mem_cons.mp hx with h | h
        · subst h; exact hd
        · exact h2 x h
    · simp only [takeDigits, if_neg hd]
      refine ⟨rfl, by simp, ?_⟩
      intro d rest h
      injection h with hd1 hd2
      subst hd1
      exact Bool.not_eq_true _ ▸ (by simpa using hd)

theorem takeDigits_append_stop (ds rest : Text)
    (hds : ∀ c ∈ ds, c.isDigit = true)
    (hstop : ∀ d rest2, rest = d :: rest2 → d.isDigit = false) :
    takeDigits (ds ++ rest) = (ds, rest) := by
  induction ds with
  | nil =>
    cases rest with
    | nil => rfl
    | cons d r2 =>
      have hdd := hstop d r2 rfl
      simp [takeDigits, hdd]
  | cons c ds ih =>
    have hc : c.isDigit = true := hds c (List.mem_cons_self c ds)
    have hds2 : ∀ x ∈ ds, x.isDigit = true := fun x hx => hds x (List.mem_cons_of_mem c hx)
    simp [takeDigits, hc, ih hds2]

/-- The CQ-code pattern matches anchored at the front of the text. -/
def cqHeadMatch (cs : Text) : Prop :=
  ∃ ds post, isDigitStr ds ∧ cs = cqCode ++ ds ++ ']' :: post

/-- The bare-mention pattern matches anchored at the front of the text. -/
def atHeadMatch (cs : Text) : Prop :=
  ∃ ds post, isDigitStr ds ∧ cs = '@' :: (ds ++ post)

theorem matchCQHere_isSome_iff (cs : Text) :
    (∃ r, matchCQHere cs = some r) ↔ cqHeadMatch cs := by
  constructor
  · rintro ⟨r, hr⟩
    unfold matchCQHere at hr
    cases hdp : dropPat cqCode cs with
    | none => rw [hdp] at hr; exact absurd hr (by simp)
    | some rest =>
      rw [hdp] at hr
      replace hr : (if (takeDigits rest).1 = [] then none
          else match (takeDigits rest).2 with
            | ']' :: _ => some (String.mk (takeDigits rest).1)
            | _ => none) = some r := hr
      obtain ⟨hdecomp, hdig, hstop⟩ := takeDigits_decomp rest
      rcases htd : takeDigits rest with ⟨t1, t2⟩
      rw [htd] at hr hdecomp hdig hstop
      simp only at hr hdecomp hdig hstop
      by_cases ht1 : t1 = []
      · rw [if_pos ht1] at hr; exact absurd hr (by simp)
      · rw [if_neg ht1] at hr
        split at hr
        · rename_i tl2
          refine ⟨t1, tl2, ⟨ht1, hdig⟩, ?_⟩
          have hcs : cs = cqCode ++ rest := (dropPat_eq_some cqCode cs rest).mp hdp
          rw [hcs, hdecomp]
          simp [List.append_assoc]
        · exact absurd hr (by simp)
  · rintro ⟨ds, post, ⟨hne, hdig⟩, hcs⟩
    have hdp : dropPat cqCode cs = some (ds ++ ']' :: post) :=
      (dropPat_eq_some cqCode cs (ds ++ ']' :: post)).mpr hcs
    have htd : takeDigits (ds ++ ']' :: post) = (ds, ']' :: post) := by
      refine takeDigits_append_stop ds (']' :: post) hdig ?_
      intro d r2 h
      injection h with h1 h2
      subst h1
      rfl
    refine ⟨String.mk ds, ?_⟩
    unfold matchCQHere
    rw [hdp]
    show (if (takeDigits (ds ++ ']' :: post)).1 = [] then none
      else match (takeDigits (ds ++ ']' :: post)).2 with
        | ']' :: _ => some (String.mk (takeDigits (ds ++ ']' :: post)).1)
        | _ => none) = some (String.mk ds)
    rw [htd]
    simp [hne]

theorem matchAtHere_isSome_iff (cs : Text) :
    (∃ r, matchAtHere cs = some r) ↔ atHeadMatch cs := by
  constructor
  · rintro ⟨r, hr⟩
    cases cs with
    | nil => exact absurd hr (by simp [matchAtHere])
    | cons c rest =>
      by_cases hc : c = '@'
      · subst hc
        replace hr : (if (takeDigits rest).1 = [] then none
            else some (String.mk (takeDigits rest).1)) = some r := hr
        obtain ⟨hdecomp, hdig, hstop⟩ := takeDigits_decomp rest
        rcases htd : takeDigits rest with ⟨t1, t2⟩
        rw [htd] at hr hdecomp hdig hstop
        simp only at hr hdecomp hdig hstop
        by_cases ht1 : t1 = []
        · rw [if_pos ht1] at hr; exact absurd hr (by simp)
        · refine ⟨t1, t2, ⟨ht1, hdig⟩, ?_⟩
          rw [hdecomp]
      · refine absurd hr ?_
        have : matchAtHere (c :: rest) = none := by
          unfold matchAtHere
          cases hcc : c :: rest with
          | nil => simp at hcc
          | cons x xs =>
            injection hcc with h1 h2
            subst h1
            subst h2
            simp [hc]
        rw [this]
        simp
  · rintro ⟨ds, post, ⟨hne, hdig⟩, hcs⟩
    subst hcs
    cases ds with
    | nil => exact absurd rfl hne
    | cons d ds2 =>
      have hd : d.isDigit = true := hdig d (List.mem_cons_self d ds2)
      have hpos : (takeDigits (d :: (ds2 ++ post))).1 ≠ [] := by
        simp [takeDigits, hd]
      refine ⟨String.mk (takeDigits (d :: (ds2 ++ post))).1, ?_⟩
      show (if (takeDigits (d :: (ds2 ++ post))).1 = [] then none
          else some (String.mk (takeDigits (d :: (ds2 ++ post))).1))
        = some (String.mk (takeDigits (d :: (ds2 ++ post))).1)
      rw [if_neg hpos]

theorem not_containsCQ_nil : ¬ containsCQ [] := by
  rintro ⟨pre, ds, post, hds, heq⟩
  have hlen := congrArg List.length heq
  have hcq : cqCode.length = 10 := rfl
  simp only [List.length_nil, List.length_append, List.length_cons, hcq] at hlen
  omega

theorem not_containsAt_nil : ¬ containsAt [] := by
  rintro ⟨pre, ds, post, hds, heq⟩
  have hlen := congrArg List.length heq
  simp only [List.length_nil, List.length_append, List.length_cons] at hlen
  omega

theorem containsCQ_cons_iff (c : Char) (cs : Text) :
    containsCQ (c :: cs) ↔ cqHeadMatch (c :: cs) ∨ containsCQ cs := by
  constructor
  · rintro ⟨pre, ds, post, hds, heq⟩
    cases pre with
    | nil =>
      left
      exact ⟨ds, post, hds, by simpa using heq⟩
    | cons p pre2 =>
      right
      rw [List.append_assoc, List.append_assoc, List.cons_append] at heq
      injection heq with h1 h2
      refine ⟨pre2, ds, post, hds, ?_⟩
      rw [h2]
      simp [List.append_assoc]
  · rintro (⟨ds, post, hds, heq⟩ | ⟨pre, ds, post, hds, heq⟩)
    · exact ⟨[], ds, post, hds, by simpa using heq⟩
    · refine ⟨c :: pre, ds, post, hds, ?_⟩
      rw [List.append_assoc, List.append_assoc, List.cons_append]
      rw [List.append_assoc, List.append_assoc] at heq
      rw [← heq]

theorem containsAt_cons_iff (c : Char) (cs : Text) :
    containsAt (c :: cs) ↔ atHeadMatch (c :: cs) ∨ containsAt cs := by
  constructor
  · rintro ⟨pre, ds, post, hds, heq⟩
    cases pre with
    | nil =>
      left
      exact ⟨ds, post, hds, by simpa using heq⟩
    | cons p pre2 =>
      right
      rw [List.cons_append] at heq
      injection heq with h1 h2
      exact ⟨pre2, ds, post, hds, h2⟩
  · rintro (⟨ds, post, hds, heq⟩ | ⟨pre, ds, post, hds, heq⟩)
    · exact ⟨[], ds, post, hds, by simpa using heq⟩
    · refine ⟨c :: pre, ds, post, hds, ?_⟩
      rw [List.cons_append, ← heq]

theorem searchCQ_cons (c : Char) (cs : Text) :
    searchCQ (c :: cs)
      = (match matchCQHere (c :: cs) with
         | some r => some r
         | none => searchCQ cs) := rfl

theorem searchAt_cons (c : Char) (cs : Text) :
    searchAt (c :: cs)
      = (match matchAtHere (c :: cs) with
         | some r => some r
         | none => searchAt cs) := rfl

theorem searchCQ_eq_none_iff : ∀ text : Text, searchCQ text = none ↔ ¬ containsCQ text := by
  intro text
  induction text with
  | nil => simpa [searchCQ] using not_containsCQ_nil
  | cons c cs ih =>
    rw [searchCQ_cons, containsCQ_cons_iff]
    cases hm : matchCQHere (c :: cs) with
    | some r =>
      simp only []
      constructor
      · intro h; exact absurd h (by simp)
      · intro h
        exact absurd ((matchCQHere_isSome_iff (c :: cs)).mp ⟨r, hm⟩)
          (fun hh => h (Or.inl hh))
    | none =>
      simp only []
      rw [ih]
      constructor
      · intro h
        rintro (hh | hh)
        · obtain ⟨r, hr⟩ := (matchCQHere_isSome_iff (c :: cs)).mpr hh
          rw [hr] at hm
          cases hm
        · exact h hh
      · intro h
        exact fun hh => h (Or.inr hh)

theorem searchAt_eq_none_iff : ∀ text : Text, searchAt text = none ↔ ¬ containsAt text := by
  intro text
  induction text with
  | nil => simpa [searchAt] using not_containsAt_nil
  | cons c cs ih =>
    rw [searchAt_cons, containsAt_cons_iff]
    cases hm : matchAtHere (c :: cs) with
    | some r =>
      simp only []
      constructor
      · intro h; exact absurd h (by simp)
      · intro h
        exact absurd ((matchAtHere_isSome_iff (c :: cs)).mp ⟨r, hm⟩)
          (fun hh => h (Or.inl hh))
    | none =>
      simp only []
      rw [ih]
      constructor
      · intro h
        rintro (hh | hh)
        · obtain ⟨r, hr⟩ := (matchAtHere_isSome_iff (c :: cs)).mpr hh
          rw [hr] at hm
          cases hm
        · exact h hh
      · intro h
        exact fun hh => h (Or.inr hh)

/-- C9: `extract_at_user` returns `none` exactly when neither the CQ-code
pattern `\[CQ:at,qq=(\d+)\]` nor the bare pattern `@(\d+)` matches anywhere
in the text, and otherwise yields the CQ-code search result when that
pattern matches (the CQ form is tried first), falling back to the bare
`@digits` search. -/
theorem extract_at_user_spec (text : Text) :
    (extract_at_user text = none ↔ ¬ containsCQ text ∧ ¬ containsAt text)
    ∧ extract_at_user text = ((searchCQ text).orElse (fun _ => searchAt text)) := by
  have hCQ := searchCQ_eq_none_iff text
  have hAt := searchAt_eq_none_iff text
  constructor
  · cases hcq : searchCQ text with
    | some r =>
      have hex : extract_at_user text = some r := by
        unfold extract_at_user
        rw [hcq]
      have hcontains : containsCQ text := by
        by_contra hc
        rw [← hCQ] at hc
        exact absurd hcq (by rw [hc]; simp)
      rw [hex]
      exact iff_of_false (by simp) (fun h => h.1 hcontains)
    | none =>
      have hex : extract_at_user text = searchAt text := by
        unfold extract_at_user
        rw [hcq]
      have hncq : ¬ containsCQ text := hCQ.mp hcq
      rw [hex, hAt]
      exact ⟨fun h => ⟨hncq, h⟩, fun h => h.2⟩
  · cases hcq : searchCQ text with
    | some r =>
      unfold extract_at_user
      rw [hcq]
      rfl
    | none =>
      unfold extract_at_user
      rw [hcq]
      rfl
